import Mathlib

/-!
Shallow embedding of the contact-manager record store
(`data.py` : `CSVDataManager`, and the pagination helpers of `commands.py`).

Modelling conventions:
* A CSV file is modelled after the Record Codec layer: a file is a list of
  already-split lines (`List Row`, each `Row` a `List String`); `Option` is
  `none` when the file does not exist.  Byte-level quoting is below the level
  of every claim.
* A Python dict is an insertion-ordered association list.  `Option String`
  values model Python `None` (the `restval` of `csv.DictReader`).
* Python exceptions become an error type `PyErr`; fallible operations return
  `Except PyErr _`, and operations that can leave a partially-written file
  return the final state together with `Option PyErr`.
* `str()` / `int()` on decimal integers are modelled by the executable
  `pyStrInt` / `parsePyInt` below (sign plus decimal digits, the forms the
  store reads and writes).
* `str.lower()` is modelled ASCII-wise by `pyLower` via `Char.toLower`.
-/

/-- One physical CSV line, already split into its fields. -/
abbrev Row := List String

/-- A Python dict from column name to value; `none` models Python `None`. -/
abbrev PyDict := List (String × Option String)

/-- The Python exceptions the store can raise. -/
inductive PyErr where
  /-- `KeyError`: dict lookup of an absent key (`row[key]`). -/
  | keyError (k : String)
  /-- `AttributeError`: calling `.lower()` on `None`. -/
  | attributeError
  /-- `TypeError`: e.g. `int(None)`. -/
  | typeError
  /-- `ValueError`: e.g. `csv.DictWriter.writerow` given keys outside
  `fieldnames`, `int()` on a non-numeric string, `islice` given a negative
  bound. -/
  | valueError
  /-- the bare `Exception("Table does not exist...")` raised by `add`. -/
  | tableNotFound
  /-- `FileNotFoundError` and kin from `open()`. -/
  | ioError
  deriving Repr, DecidableEq

/-- A record as produced by `csv.DictReader`: one value per header column
(`none` when the line was short), plus the extra fields of an over-long line
(which `DictReader` files under its `restkey`). -/
structure PyRecord where
  fields : PyDict
  rest : List String
  deriving Repr, DecidableEq

/-- The schema hard-wired in `CSVDataManager.__init__`. -/
def defaultColumns : List String :=
  ["id", "last_name", "first_name", "middle_name", "work_phone",
   "personal_phone", "date_added"]

/-- State of a `CSVDataManager`: the backing file (`none` = file absent) and
the in-memory schema handle `self.field_names`. -/
structure CSVDataManager where
  file : Option (List Row)
  field_names : Option (List String)
  deriving Repr, DecidableEq

/-- Python truthiness of `self.field_names` (`None` and `[]` are falsy). -/
def pyFalsyList : Option (List String) → Bool
  | none => true
  | some [] => true
  | some (_ :: _) => false

/-- The digit character of `d` (`0`-`9` for `d < 10`). -/
def digitCh (d : Nat) : Char := Char.ofNat (48 + d)

/-- Numeric value of a digit character. -/
def dVal (c : Char) : Nat := c.toNat - 48

/-- Is `c` an ASCII decimal digit? -/
def isDigitCh (c : Char) : Bool := 48 ≤ c.toNat && c.toNat ≤ 57

/-- Decimal digits of `n`, most significant first; fuelled so that the kernel
can evaluate it (the fuel `n + 1` always suffices). -/
def natDigitsCore : Nat → Nat → List Char → List Char
  | 0, _, acc => acc
  | fuel + 1, n, acc =>
    if n < 10 then digitCh n :: acc
    else natDigitsCore fuel (n / 10) (digitCh (n % 10) :: acc)

/-- Decimal digit string of `n`, most significant first. -/
def natDigits (n : Nat) : List Char := natDigitsCore (n + 1) n []

/-- Python `str` on a natural number. -/
def pyStrNat (n : Nat) : String := String.mk (natDigits n)

/-- Python `str` on an `int`. -/
def pyStrInt (i : Int) : String :=
  if i < 0 then String.mk ('-' :: natDigits i.natAbs) else pyStrNat i.toNat

/-- Parse an unsigned decimal digit string (the digits-only core of Python
`int()`); `none` on the empty string or any non-digit character. -/
def parseNatChars (cs : List Char) : Option Nat :=
  if cs.isEmpty then none
  else if cs.all isDigitCh then
    some (cs.foldl (fun a c => a * 10 + dVal c) 0)
  else none

/-- Python `int()` on a string: an optional minus sign followed by decimal
digits (the forms the store ever writes); anything else is a `ValueError`,
modelled as `none`. -/
def parsePyInt (s : String) : Option Int :=
  match s.data with
  | [] => none
  | c :: rest =>
    if c = '-' then (parseNatChars rest).map (fun n => -(n : Int))
    else (parseNatChars (c :: rest)).map (fun n => (n : Int))

/-- Python `int()` applied to a dict value: `int(None)` is a `TypeError`,
a non-numeric string a `ValueError`. -/
def pyInt : Option String → Except PyErr Int
  | none => .error .typeError
  | some s =>
    match parsePyInt s with
    | some i => .ok i
    | none => .error .valueError

/-- ASCII model of Python `str.lower()`. -/
def pyLower (s : String) : String := String.mk (s.data.map Char.toLower)

/-- `dict(zip(header, row))` padded with `None` for missing trailing fields,
exactly as `csv.DictReader` builds a row dict. -/
def zipPad : List String → List String → PyDict
  | [], _ => []
  | n :: ns, [] => (n, none) :: zipPad ns []
  | n :: ns, v :: vs => (n, some v) :: zipPad ns vs

/-- Decode one line against the header, as `csv.DictReader` does: one entry
per header column (`none` when the line is short), extra fields kept under
the rest key. -/
def decodeRow (header : List String) (row : Row) : PyRecord :=
  { fields := zipPad header row, rest := row.drop header.length }

/-- Dict lookup `row[key]`: `KeyError` when the key is absent. -/
def PyRecord.get (r : PyRecord) (k : String) : Except PyErr (Option String) :=
  match r.fields.lookup k with
  | some v => .ok v
  | none => .error (.keyError k)

/-- Python dict assignment `d[k] = v`: replace in place if the key exists,
append otherwise. -/
def dictSet (d : PyDict) (k : String) (v : Option String) : PyDict :=
  if d.any (fun kv => kv.1 = k) then
    d.map (fun kv => if kv.1 = k then (k, v) else kv)
  else d ++ [(k, v)]

/-- A caller-supplied `dict[str, str]` as a `PyDict`. -/
def toPyDict (d : List (String × String)) : PyDict :=
  d.map (fun kv => (kv.1, some kv.2))

/-- The rows yielded by `csv.DictReader` over a whole file: the first line is
the header, blank lines are skipped, every other line is decoded. -/
def readRecords : List Row → List PyRecord
  | [] => []
  | header :: rows => (rows.filter (fun r => r != [])).map (decodeRow header)

/-- `all(row[key].lower() == value.lower() for key, value in criteria.items())`
from `CSVDataManager.list`: short-circuiting, `KeyError` on an unknown
column, `AttributeError` when the stored value is `None`. -/
def matchesCI (r : PyRecord) : List (String × String) → Except PyErr Bool
  | [] => .ok true
  | (k, v) :: rest => do
    let x ← r.get k
    match x with
    | none => .error .attributeError
    | some s =>
      if pyLower s = pyLower v then matchesCI r rest else .ok false

/-- `all(row[key] == value for key, value in criteria.items())` from
`CSVDataManager.delete` / `update`: exact, case-sensitive comparison
(`None == value` is simply `False` in Python). -/
def matchesExact (r : PyRecord) : List (String × String) → Except PyErr Bool
  | [] => .ok true
  | (k, v) :: rest => do
    let x ← r.get k
    if x = some v then matchesExact r rest else .ok false

/-- A Python list comprehension with a fallible predicate, evaluated left to
right. -/
def filterME (p : PyRecord → Except PyErr Bool) :
    List PyRecord → Except PyErr (List PyRecord)
  | [] => .ok []
  | r :: rs => do
    let b ← p r
    let rest ← filterME p rs
    pure (if b then r :: rest else rest)

/-- A Python for-loop mapping a fallible transform over a list. -/
def mapME (f : PyRecord → Except PyErr PyRecord) :
    List PyRecord → Except PyErr (List PyRecord)
  | [] => .ok []
  | r :: rs => do
    let r' ← f r
    let rest ← mapME f rs
    pure (r' :: rest)

/-- The loop body of `_get_last_id`: `last_id = int(row['id'])` for every row
in turn, so the final value is the last row's id (every row is parsed). -/
def lastIdFold : List PyRecord → Int → Except PyErr Int
  | [], acc => .ok acc
  | r :: rs, _ => do
    let v ← r.get "id"
    let n ← pyInt v
    lastIdFold rs n

/-- `itertools.islice(records, start, end)`: `ValueError` on a negative
bound, otherwise the clamped half-open slice. -/
def pyIslice (l : List PyRecord) (s e : Int) : Except PyErr (List PyRecord) :=
  if s < 0 ∨ e < 0 then .error .valueError
  else .ok ((l.drop s.toNat).take (e.toNat - s.toNat))

/-- `csv.DictWriter` encoding of one dict: values in `fieldnames` order,
absent keys and `None` written as the empty string. -/
def encodeField (d : PyDict) (k : String) : String :=
  match d.lookup k with
  | some (some s) => s
  | some none => ""
  | none => ""

/-- One line as written by `csv.DictWriter.writerow`. -/
def encodeRow (fns : List String) (d : PyDict) : Row := fns.map (encodeField d)

/-- The `wrong_fields` check of `csv.DictWriter.writerow`: a key outside
`fieldnames` (including the rest key of an over-long decoded line) raises
`ValueError`. -/
def wrongFields (fns : List String) (r : PyRecord) : Bool :=
  r.fields.any (fun kv => !(fns.contains kv.1)) || !r.rest.isEmpty

/-- The write loop of `_overwrite_with`: rows written so far (starting from
the freshly-written header), stopping with `ValueError` at the first record
with keys outside the schema.  Returns the file contents actually written. -/
def overwriteGo (fns : List String) :
    List PyRecord → List Row → List Row × Option PyErr
  | [], acc => (acc, none)
  | r :: rs, acc =>
    if wrongFields fns r then (acc, some .valueError)
    else overwriteGo fns rs (acc ++ [encodeRow fns r.fields])

/-- `CSVDataManager._get_field_names`: `None` when the file is absent,
otherwise `next(csv.reader(file), None)` — the first line, if any. -/
def getFieldNames : Option (List Row) → Option (List String)
  | none => none
  | some rows => rows.head?

/-- `CSVDataManager.create_table`: guarded by the truthiness of the in-memory
`self.field_names`; when falsy it opens the file in mode `w` (truncating any
existing contents) and writes the header line. -/
def CSVDataManager.create_table (st : CSVDataManager)
    (columns : List String) : CSVDataManager :=
  if pyFalsyList st.field_names then
    { file := some [columns], field_names := some columns }
  else st

/-- The state built by `CSVDataManager.__init__` just before its
`create_table` call: the schema handle is read back from the file. -/
def preInit (f : Option (List Row)) : CSVDataManager :=
  { file := f, field_names := getFieldNames f }

/-- `CSVDataManager.__init__` for a given initial file state: read the
header, then `create_table` with the hard-wired columns. -/
def initManager (f : Option (List Row)) : CSVDataManager :=
  (preInit f).create_table defaultColumns

/-- `CSVDataManager._get_last_id`. -/
def CSVDataManager.get_last_id (st : CSVDataManager) : Except PyErr Int :=
  match st.file with
  | none => .error .ioError
  | some fileRows => lastIdFold (readRecords fileRows) 0

/-- `CSVDataManager.add`: refuse when the schema handle is falsy, set
`data['id'] = str(self._get_last_id() + 1)`, then append one encoded line
(`DictWriter.writerow` in mode `a`, which raises `ValueError` before writing
when the dict has keys outside the schema). -/
def CSVDataManager.add (st : CSVDataManager) (data : List (String × String)) :
    Except PyErr CSVDataManager :=
  if pyFalsyList st.field_names then .error .tableNotFound
  else
    match st.field_names with
    | none => .error .tableNotFound
    | some fns =>
      match st.file with
      | none => .error .ioError
      | some fileRows => do
        let lastId ← lastIdFold (readRecords fileRows) 0
        let record := dictSet (toPyDict data) "id" (some (pyStrInt (lastId + 1)))
        if record.any (fun kv => !(fns.contains kv.1)) then .error .valueError
        else .ok { st with file := some (fileRows ++ [encodeRow fns record]) }

/-- Key extraction for `sorted(records, key=lambda row: row[order_by])`:
every key is looked up (a `KeyError` surfaces); `None` keys only fault when
two elements are actually compared, which the caller checks. -/
def extractKeys (k : String) :
    List PyRecord → Except PyErr (List (Option String × PyRecord))
  | [] => .ok []
  | r :: rs => do
    let v ← r.get k
    let rest ← extractKeys k rs
    pure ((v, r) :: rest)

/-- `CSVDataManager.list`, without the `row_slice` stage: read and decode all
lines, then filter by the (truthy) criteria case-insensitively, then sort by
the (truthy) `order_by` column. -/
def CSVDataManager.listBase (st : CSVDataManager)
    (criteria : Option (List (String × String)))
    (order_by : Option String) : Except PyErr (List PyRecord) :=
  match st.file with
  | none => .error .ioError
  | some fileRows => do
    let records := readRecords fileRows
    let records ←
      match criteria with
      | none => pure records
      | some c =>
        if c.isEmpty then pure records
        else filterME (fun r => matchesCI r c) records
    match order_by with
    | none => pure records
    | some k =>
      if k = "" then pure records
      else do
        let keyed ← extractKeys k records
        if records.length ≤ 1 then pure records
        else if keyed.any (fun kv => kv.1.isNone) then .error .typeError
        else
          pure ((keyed.mergeSort
            (fun a b => decide (a.1.getD "" ≤ b.1.getD ""))).map Prod.snd)

/-- `CSVDataManager.list`: the base pipeline followed by the optional
`islice` pagination stage. -/
def CSVDataManager.list (st : CSVDataManager)
    (criteria : Option (List (String × String)))
    (order_by : Option String)
    (row_slice : Option (Int × Int)) : Except PyErr (List PyRecord) := do
  let records ← st.listBase criteria order_by
  match row_slice with
  | none => pure records
  | some (s, e) => pyIslice records s e

/-- `CSVDataManager._overwrite_with`: open the file in mode `w` (truncating
it), write the header, then write the records one by one; a record with keys
outside the schema raises `ValueError` mid-write, leaving the file with
whatever was written so far. -/
def CSVDataManager.overwrite_with (st : CSVDataManager)
    (records : List PyRecord) : CSVDataManager × Option PyErr :=
  match st.field_names with
  | none => ({ st with file := some [] }, some .typeError)
  | some fns =>
    let (rows, err) := overwriteGo fns records [fns]
    ({ st with file := some rows }, err)

/-- `CSVDataManager.delete`: read everything, keep the rows that do NOT
fully match the criteria (exact, case-sensitive), rewrite the file.  An
error raised while reading or matching happens before any write, so the
state is returned unchanged in that case. -/
def CSVDataManager.delete (st : CSVDataManager)
    (criteria : List (String × String)) : CSVDataManager × Option PyErr :=
  match st.list none none none with
  | .error e => (st, some e)
  | .ok records =>
    match filterME (fun r => do pure (!(← matchesExact r criteria))) records with
    | .error e => (st, some e)
    | .ok kept => st.overwrite_with kept

/-- In-place field replacement of `update`'s inner loop: `row[key] = value`
for every pair of the update data. -/
def applyData (data : List (String × String)) (r : PyRecord) : PyRecord :=
  { r with fields := data.foldl (fun d kv => dictSet d kv.1 (some kv.2)) r.fields }

/-- `CSVDataManager.update`: read everything, mutate every fully-matching
row, rewrite the file. -/
def CSVDataManager.update (st : CSVDataManager)
    (criteria data : List (String × String)) : CSVDataManager × Option PyErr :=
  match st.list none none none with
  | .error e => (st, some e)
  | .ok records =>
    match mapME (fun r => do
        pure (if (← matchesExact r criteria) then applyData data r else r))
        records with
    | .error e => (st, some e)
    | .ok mutated => st.overwrite_with mutated

/-- `get_previous_page_command` of `commands.py`, on the page window the
copied command carries.  `pageSize` stands for `ROWS_COUNT_IN_PAGE`.
Modelled from the spec: `ROWS_COUNT_IN_PAGE` lives in `config.py`, which is
not part of the sources; the spec calls it a fixed records-per-page
configuration constant, so it is taken as a parameter here. -/
def get_previous_page_command (pageSize : Int) (p : Int × Int) : Int × Int :=
  if p.1 ≥ pageSize then (p.1 - pageSize, p.2 - pageSize) else (0, pageSize)

/-- `get_next_page_command` of `commands.py`: `listLength` is
`len(data_manager.list())` recomputed at call time.
Modelled from the spec: `ROWS_COUNT_IN_PAGE` (here `pageSize`) lives in
`config.py`, which is not part of the sources. -/
def get_next_page_command (pageSize listLength : Int) (p : Int × Int) :
    Int × Int :=
  if p.2 + pageSize > listLength then (listLength - pageSize, listLength)
  else (p.1 + pageSize, p.2 + pageSize)

/-- The id column of every stored record line, in file order (the id is the
first schema column, hence the first field of each line). -/
def tableIds (st : CSVDataManager) : List String :=
  match st.file with
  | some (_ :: rows) => rows.map (fun row => row.headD "")
  | _ => []

/-- A sequence of `add` calls, stopping at the first error. -/
def runAdds (st : CSVDataManager) :
    List (List (String × String)) → Except PyErr CSVDataManager
  | [] => .ok st
  | d :: ds => do
    let st' ← st.add d
    runAdds st' ds

/-- Pure mirror of the case-insensitive criteria matching performed by
`CSVDataManager.list` (for stating what the monadic code computes). -/
def specMatchCI (crit : List (String × String)) (r : PyRecord) : Bool :=
  crit.all (fun kv =>
    match r.fields.lookup kv.1 with
    | some (some s) => pyLower s == pyLower kv.2
    | _ => false)

/-- Pure mirror of the exact, case-sensitive criteria matching performed by
`CSVDataManager.delete` and `update`. -/
def specMatchExact (crit : List (String × String)) (r : PyRecord) : Bool :=
  crit.all (fun kv =>
    match r.fields.lookup kv.1 with
    | some (some s) => s == kv.2
    | _ => false)

/-- Store invariant for the id-assignment claims: the schema is the
hard-wired one, every stored line has exactly one field per column, and the
id column holds the decimal strings of a strictly increasing list of
positive integers. -/
def StoreInv (st : CSVDataManager) (ids : List Int) : Prop :=
  ∃ rows,
    st.field_names = some defaultColumns ∧
    st.file = some (defaultColumns :: rows) ∧
    (∀ row ∈ rows, row.length = defaultColumns.length) ∧
    rows.map (fun row => row.headD "") = ids.map pyStrInt ∧
    List.Chain' (· < ·) ids ∧
    (∀ i ∈ ids, 0 < i)

/-- The concrete run refuting the never-reuse clause of the id-assignment
claim: add one contact, delete it by its id, add another; the three
observations are the stored id columns after each step. -/
def reuseRun : Except PyErr (List String × List String × List String) := do
  let s1 ← (initManager none).add [("last_name", "smith")]
  let (s2, e) := s1.delete [("id", "1")]
  if e.isSome then .error .valueError
  else do
    let s3 ← s2.add [("last_name", "jones")]
    pure (tableIds s1, tableIds s2, tableIds s3)

theorem natDigitsCore_append (fuel : Nat) :
    ∀ n acc, natDigitsCore fuel n acc = natDigitsCore fuel n [] ++ acc := by
  induction fuel with
  | zero => intro n acc; simp [natDigitsCore]
  | succ f ih =>
    intro n acc
    by_cases h : n < 10
    · simp [natDigitsCore, h]
    · simp only [natDigitsCore, if_neg h]
      rw [ih (n / 10) (digitCh (n % 10) :: acc), ih (n / 10) [digitCh (n % 10)]]
      simp

theorem natDigitsCore_fuel :
    ∀ n f1 f2, n < f1 → n < f2 →
      natDigitsCore f1 n [] = natDigitsCore f2 n [] := by
  intro n
  induction n using Nat.strong_induction_on with
  | _ n ih =>
    intro f1 f2 h1 h2
    match f1, f2 with
    | g1 + 1, g2 + 1 =>
      by_cases h : n < 10
      · simp [natDigitsCore, h]
      · simp only [natDigitsCore, if_neg h]
        rw [natDigitsCore_append g1, natDigitsCore_append g2]
        have hd : n / 10 < n := Nat.div_lt_self (by omega) (by omega)
        rw [ih (n / 10) hd g1 g2 (by omega) (by omega)]

theorem natDigits_small {n : Nat} (h : n < 10) : natDigits n = [digitCh n] := by
  simp [natDigits, natDigitsCore, h]

theorem natDigits_step {n : Nat} (h : 10 ≤ n) :
    natDigits n = natDigits (n / 10) ++ [digitCh (n % 10)] := by
  have hd : n / 10 < n := Nat.div_lt_self (by omega) (by omega)
  show natDigitsCore (n + 1) n [] = _
  simp only [natDigitsCore, if_neg (by omega : ¬ n < 10)]
  rw [natDigitsCore_append n]
  congr 1
  exact natDigitsCore_fuel (n / 10) n (n / 10 + 1) (by omega) (by omega)

theorem dVal_digitCh {d : Nat} (h : d < 10) : dVal (digitCh d) = d := by
  interval_cases d <;> rfl

theorem isDigitCh_digitCh {d : Nat} (h : d < 10) :
    isDigitCh (digitCh d) = true := by
  interval_cases d <;> rfl

theorem natDigits_all_digits (n : Nat) :
    ∀ c ∈ natDigits n, isDigitCh c = true := by
  induction n using Nat.strong_induction_on with
  | _ n ih =>
    by_cases h : n < 10
    · rw [natDigits_small h]
      intro c hc
      rw [List.mem_singleton] at hc
      subst hc
      exact isDigitCh_digitCh h
    · rw [natDigits_step (by omega)]
      intro c hc
      rcases List.mem_append.mp hc with h1 | h2
      · exact ih (n / 10) (Nat.div_lt_self (by omega) (by omega)) c h1
      · rw [List.mem_singleton] at h2
        subst h2
        exact isDigitCh_digitCh (Nat.mod_lt _ (by omega))

theorem natDigits_ne_nil (n : Nat) : natDigits n ≠ [] := by
  by_cases h : n < 10
  · rw [natDigits_small h]; simp
  · rw [natDigits_step (by omega)]; simp

theorem natDigits_foldl (n : Nat) :
    (natDigits n).foldl (fun a c => a * 10 + dVal c) 0 = n := by
  induction n using Nat.strong_induction_on with
  | _ n ih =>
    by_cases h : n < 10
    · rw [natDigits_small h]
      simp [dVal_digitCh h]
    · rw [natDigits_step (by omega), List.foldl_append,
        ih (n / 10) (Nat.div_lt_self (by omega) (by omega))]
      simp only [List.foldl_cons, List.foldl_nil,
        dVal_digitCh (Nat.mod_lt n (by omega))]
      omega

theorem parseNatChars_natDigits (n : Nat) :
    parseNatChars (natDigits n) = some n := by
  unfold parseNatChars
  rw [if_neg (by simp [List.isEmpty_iff, natDigits_ne_nil]),
    if_pos (by rw [List.all_eq_true]; exact natDigits_all_digits n),
    natDigits_foldl]

theorem parsePyInt_pyStrNat (n : Nat) :
    parsePyInt (pyStrNat n) = some (n : Int) := by
  obtain ⟨c, rest, hc⟩ := List.exists_cons_of_ne_nil (natDigits_ne_nil n)
  have hdig : isDigitCh c = true := natDigits_all_digits n c (by rw [hc]; simp)
  have hdash : c ≠ '-' := by
    intro h
    subst h
    simp [isDigitCh] at hdig
  have hstr : pyStrNat n = String.mk (c :: rest) := by
    rw [pyStrNat, hc]
  rw [hstr]
  show (if c = '-' then (parseNatChars rest).map (fun m => -(m : Int))
    else (parseNatChars (c :: rest)).map (fun m => (m : Int))) = some (n : Int)
  rw [if_neg hdash, ← hc, parseNatChars_natDigits]
  rfl

theorem parsePyInt_pyStrInt {i : Int} (h : 0 ≤ i) :
    parsePyInt (pyStrInt i) = some i := by
  unfold pyStrInt
  rw [if_neg (by omega), parsePyInt_pyStrNat, Int.toNat_of_nonneg h]

theorem pyInt_pyStrInt {i : Int} (h : 0 ≤ i) :
    pyInt (some (pyStrInt i)) = .ok i := by
  simp [pyInt, parsePyInt_pyStrInt h]

/-- C6: for every page window `P` and total record count, if
`P.start >= pageSize` and `P.end + pageSize <= total`, then
`previousPage(nextPage(P)) == P` — the pagination helpers, applied in that
order, restore the original window.  (`pageSize`, the records-per-page
configuration constant, is taken non-negative.) -/
theorem C6_pagination_inverse (pageSize total : Int) (p : Int × Int)
    (hps : 0 ≤ pageSize) (h1 : pageSize ≤ p.1) (h2 : p.2 + pageSize ≤ total) :
    get_previous_page_command pageSize
      (get_next_page_command pageSize total p) = p := by
  obtain ⟨a, b⟩ := p
  simp only at h1 h2
  unfold get_next_page_command
  rw [if_neg (by show ¬(b + pageSize > total); omega)]
  unfold get_previous_page_command
  rw [if_pos (by show a + pageSize ≥ pageSize; omega)]
  simp only [Prod.mk.injEq]
  omega

theorem C6_pagination_inverse_witness :
    (0 : Int) ≤ 3 ∧ (3 : Int) ≤ (((3 : Int), (6 : Int))).1 ∧
      (((3 : Int), (6 : Int))).2 + 3 ≤ 9 ∧
      get_previous_page_command 3 (get_next_page_command 3 9 (3, 6)) = (3, 6) :=
  ⟨by norm_num, by norm_num, by norm_num,
    C6_pagination_inverse 3 9 (3, 6) (by norm_num) (by norm_num) (by norm_num)⟩

/-- C10: whenever the total record count is smaller than `pageSize` (and the
current window's end bound is non-negative, as every window the program
builds is), `nextPage` yields the window `[total - pageSize, total]` whose
start bound `total - pageSize` is negative — the clamping promised for
`previousPage` does not hold for `nextPage`. -/
theorem C10_next_page_negative_start (pageSize total : Int) (p : Int × Int)
    (hend : 0 ≤ p.2) (h : total < pageSize) :
    get_next_page_command pageSize total p = (total - pageSize, total) ∧
      total - pageSize < 0 := by
  unfold get_next_page_command
  rw [if_pos (by omega)]
  exact ⟨rfl, by omega⟩

theorem C10_next_page_negative_start_witness :
    (0 : Int) ≤ (((0 : Int), (5 : Int))).2 ∧ (3 : Int) < 5 ∧
      get_next_page_command 5 3 (0, 5) = (3 - 5, 3) ∧ (3 : Int) - 5 < 0 :=
  ⟨by norm_num, by norm_num,
    (C10_next_page_negative_start 5 3 (0, 5) (by norm_num) (by norm_num)).1,
    (C10_next_page_negative_start 5 3 (0, 5) (by norm_num) (by norm_num)).2⟩

theorem zipPad_keys : ∀ (hdr row : List String),
    (zipPad hdr row).map Prod.fst = hdr := by
  intro hdr
  induction hdr with
  | nil => intro row; rfl
  | cons n ns ih =>
    intro row
    cases row with
    | nil => simp [zipPad, ih]
    | cons v vs => simp [zipPad, ih]

theorem zipPad_lookup_isSome : ∀ (hdr row : List String) (k : String),
    k ∈ hdr → ((zipPad hdr row).lookup k).isSome = true := by
  intro hdr
  induction hdr with
  | nil => simp
  | cons n ns ih =>
    intro row k hk
    by_cases hkn : k = n
    · subst hkn
      cases row <;> simp [zipPad, List.lookup_cons]
    · have hk' : k ∈ ns := by
        rcases List.mem_cons.mp hk with h | h
        · exact absurd h hkn
        · exact h
      have hbeq : (k == n) = false := beq_eq_false_iff_ne.mpr hkn
      cases row <;> simp [zipPad, List.lookup_cons, hbeq, ih _ k hk']

theorem zipPad_lookup_full : ∀ (hdr row : List String) (k : String),
    k ∈ hdr → row.length = hdr.length →
    ∃ s, (zipPad hdr row).lookup k = some (some s) := by
  intro hdr
  induction hdr with
  | nil => simp
  | cons n ns ih =>
    intro row k hk hlen
    cases row with
    | nil => simp at hlen
    | cons v vs =>
      by_cases hkn : k = n
      · subst hkn
        exact ⟨v, by simp [zipPad, List.lookup_cons]⟩
      · have hk' : k ∈ ns := by
          rcases List.mem_cons.mp hk with h | h
          · exact absurd h hkn
          · exact h
        have hbeq : (k == n) = false := beq_eq_false_iff_ne.mpr hkn
        obtain ⟨s, hs⟩ := ih vs k hk' (by simpa using hlen)
        exact ⟨s, by simp [zipPad, List.lookup_cons, hbeq, hs]⟩

theorem encodeField_cons_ne {n k : String} {x : Option String} {d : PyDict}
    (h : k ≠ n) : encodeField ((n, x) :: d) k = encodeField d k := by
  have hbeq : (k == n) = false := beq_eq_false_iff_ne.mpr h
  simp [encodeField, List.lookup_cons, hbeq]

theorem encode_zipPad : ∀ (hdr row : List String), hdr.Nodup →
    row.length = hdr.length → encodeRow hdr (zipPad hdr row) = row := by
  intro hdr
  induction hdr with
  | nil =>
    intro row _ hlen
    cases row with
    | nil => rfl
    | cons v vs => simp at hlen
  | cons n ns ih =>
    intro row hnd hlen
    cases row with
    | nil => simp at hlen
    | cons v vs =>
      obtain ⟨hn, hnd'⟩ := List.nodup_cons.mp hnd
      show List.map (encodeField ((n, some v) :: zipPad ns vs)) (n :: ns) = v :: vs
      rw [List.map_cons]
      congr 1
      · simp [encodeField, List.lookup_cons]
      · rw [List.map_congr_left
          (fun m hm => encodeField_cons_ne (fun he => hn (by rw [he] at hm; exact hm)))]
        exact ih vs hnd' (by simpa using hlen)

theorem matchesCI_pure (r : PyRecord) : ∀ crit : List (String × String),
    (∀ kv ∈ crit, ∃ s, r.fields.lookup kv.1 = some (some s)) →
    matchesCI r crit = .ok (specMatchCI crit r) := by
  intro crit
  induction crit with
  | nil => intro _; rfl
  | cons kv rest ih =>
    intro h
    obtain ⟨s, hs⟩ := h kv (by simp)
    obtain ⟨k, v⟩ := kv
    simp only at hs
    have hget : r.get k = .ok (some s) := by simp [PyRecord.get, hs]
    show (do
      let x ← r.get k
      match x with
      | none => .error .attributeError
      | some s =>
        if pyLower s = pyLower v then matchesCI r rest else .ok false) =
      .ok (specMatchCI ((k, v) :: rest) r)
    rw [hget]
    show (if pyLower s = pyLower v then matchesCI r rest else .ok false) = _
    have hspec : specMatchCI ((k, v) :: rest) r
        = ((pyLower s == pyLower v) && specMatchCI rest r) := by
      simp [specMatchCI, hs]
    by_cases hc : pyLower s = pyLower v
    · rw [if_pos hc, ih (fun kv hkv => h kv (List.mem_cons_of_mem _ hkv)),
        hspec]
      simp [hc]
    · rw [if_neg hc, hspec]
      have : (pyLower s == pyLower v) = false := beq_eq_false_iff_ne.mpr hc
      simp [this]

theorem matchesExact_pure (r : PyRecord) : ∀ crit : List (String × String),
    (∀ kv ∈ crit, (r.fields.lookup kv.1).isSome = true) →
    matchesExact r crit = .ok (specMatchExact crit r) := by
  intro crit
  induction crit with
  | nil => intro _; rfl
  | cons kv rest ih =>
    intro h
    obtain ⟨x, hx⟩ := Option.isSome_iff_exists.mp (h kv (by simp))
    obtain ⟨k, v⟩ := kv
    simp only at hx
    have hget : r.get k = .ok x := by simp [PyRecord.get, hx]
    show (do
      let y ← r.get k
      if y = some v then matchesExact r rest else .ok false) =
      .ok (specMatchExact ((k, v) :: rest) r)
    rw [hget]
    show (if x = some v then matchesExact r rest else .ok false) = _
    cases x with
    | none =>
      rw [if_neg (by simp)]
      simp [specMatchExact, hx]
    | some s =>
      have hspec : specMatchExact ((k, v) :: rest) r
          = ((s == v) && specMatchExact rest r) := by
        simp [specMatchExact, hx]
      by_cases hc : s = v
      · rw [if_pos (by rw [hc]),
          ih (fun kv hkv => h kv (List.mem_cons_of_mem _ hkv)), hspec]
        simp [hc]
      · rw [if_neg (by simp [hc]), hspec]
        have : (s == v) = false := beq_eq_false_iff_ne.mpr hc
        simp [this]

theorem filterME_pure (p : PyRecord → Except PyErr Bool) (q : PyRecord → Bool) :
    ∀ l : List PyRecord, (∀ r ∈ l, p r = .ok (q r)) →
    filterME p l = .ok (l.filter q) := by
  intro l
  induction l with
  | nil => intro _; rfl
  | cons r rs ih =>
    intro h
    show (do
      let b ← p r
      let rest ← filterME p rs
      pure (if b then r :: rest else rest)) = .ok ((r :: rs).filter q)
    rw [h r (by simp), ih (fun x hx => h x (List.mem_cons_of_mem _ hx))]
    show Except.ok (if q r then r :: rs.filter q else rs.filter q) = _
    rw [List.filter_cons]

theorem mapME_pure (f : PyRecord → Except PyErr PyRecord)
    (g : PyRecord → PyRecord) :
    ∀ l : List PyRecord, (∀ r ∈ l, f r = .ok (g r)) →
    mapME f l = .ok (l.map g) := by
  intro l
  induction l with
  | nil => intro _; rfl
  | cons r rs ih =>
    intro h
    show (do
      let r' ← f r
      let rest ← mapME f rs
      pure (r' :: rest)) = .ok ((r :: rs).map g)
    rw [h r (by simp), ih (fun x hx => h x (List.mem_cons_of_mem _ hx))]
    rfl

theorem readRecords_wf (hdr : List String) (rows : List Row)
    (h : ∀ row ∈ rows, row ≠ []) :
    readRecords (hdr :: rows) = rows.map (decodeRow hdr) := by
  show (rows.filter (fun r => r != [])).map (decodeRow hdr) = _
  rw [List.filter_eq_self.mpr (fun r hr => by simpa using h r hr)]

theorem listBase_plain (st : CSVDataManager) (fr : List Row)
    (h : st.file = some fr) :
    st.listBase none none = .ok (readRecords fr) := by
  unfold CSVDataManager.listBase
  rw [h]
  rfl

theorem list_none_slice (st : CSVDataManager)
    (c : Option (List (String × String))) (ob : Option String) :
    st.list c ob none = st.listBase c ob := by
  unfold CSVDataManager.list
  cases h : st.listBase c ob <;> rfl

theorem list_some_slice (st : CSVDataManager)
    (c : Option (List (String × String))) (ob : Option String) (s e : Int)
    (L : List PyRecord) (h : st.listBase c ob = .ok L) :
    st.list c ob (some (s, e)) = pyIslice L s e := by
  unfold CSVDataManager.list
  rw [h]
  rfl

theorem overwriteGo_clean (fns : List String) :
    ∀ (recs : List PyRecord) (acc : List Row),
    (∀ r ∈ recs, wrongFields fns r = false) →
    overwriteGo fns recs acc
      = (acc ++ recs.map (fun r => encodeRow fns r.fields), none) := by
  intro recs
  induction recs with
  | nil => intro acc _; simp [overwriteGo]
  | cons r rs ih =>
    intro acc h
    show (if wrongFields fns r then (acc, some .valueError)
      else overwriteGo fns rs (acc ++ [encodeRow fns r.fields])) = _
    rw [h r (by simp), if_neg (by simp),
      ih _ (fun x hx => h x (List.mem_cons_of_mem _ hx))]
    simp

theorem wrongFields_decode (hdr : List String) (row : Row)
    (hlen : row.length = hdr.length) :
    wrongFields hdr (decodeRow hdr row) = false := by
  unfold wrongFields decodeRow
  simp only [Bool.or_eq_false_iff]
  constructor
  · rw [List.any_eq_false]
    intro kv hkv
    have : kv.1 ∈ hdr := by
      rw [← zipPad_keys hdr row]
      exact List.mem_map_of_mem Prod.fst hkv
    simp [this]
  · rw [← hlen, List.drop_length]
    rfl

/-- C2 counterexample: a stored line `["x"]` has 1 field against the
2-column header `["a", "b"]`, yet reading the table succeeds — `DictReader`
pads the missing column with `None` and returns a record; no
`SchemaMismatch` error is raised. -/
theorem C2_no_schema_mismatch_counterexample :
    (CSVDataManager.mk (some [["a", "b"], ["x"]]) (some ["a", "b"])).list
        none none none =
      .ok [{ fields := [("a", some "x"), ("b", none)], rest := [] }] := by
  rfl

/-- C2 amended: reading the table never fails on a field-count mismatch.
Every stored non-blank line decodes to a record whose keys are exactly the
header's columns (missing trailing fields become `None`, surplus fields are
kept under the reader's rest key); `list` returns these records. -/
theorem C2_mismatch_read_amended (st : CSVDataManager) (hdr : List String)
    (rows : List Row) (hfile : st.file = some (hdr :: rows))
    (hrows : ∀ row ∈ rows, row ≠ []) :
    st.list none none none = .ok (rows.map (decodeRow hdr)) ∧
    ∀ row ∈ rows, (decodeRow hdr row).fields.map Prod.fst = hdr ∧
      (decodeRow hdr row).rest = row.drop hdr.length := by
  constructor
  · rw [list_none_slice, listBase_plain st _ hfile, readRecords_wf hdr rows hrows]
  · intro row _
    exact ⟨zipPad_keys hdr row, rfl⟩

theorem C2_mismatch_read_witness :
    (CSVDataManager.mk (some [["a", "b"], ["x", "y", "z"]]) (some ["a", "b"])).list
        none none none =
      .ok ([["x", "y", "z"]].map (decodeRow ["a", "b"])) ∧
    ∀ row ∈ [["x", "y", "z"]],
      (decodeRow ["a", "b"] row).fields.map Prod.fst = ["a", "b"] ∧
      (decodeRow ["a", "b"] row).rest = row.drop (["a", "b"] : List String).length :=
  C2_mismatch_read_amended
    (CSVDataManager.mk (some [["a", "b"], ["x", "y", "z"]]) (some ["a", "b"]))
    ["a", "b"] [["x", "y", "z"]] rfl (by decide)

/-- C3: the claim says an update whose field mapping references a column
outside the schema surfaces the error with no partial effect.  The code
does surface a `ValueError` (from `DictWriter.writerow`), but only in the
middle of `_overwrite_with`, which has already truncated the file: with one
stored record matching the criteria, the rewrite stops after the header and
the record line is lost.  The spec's no-partial-effect guarantee is the
documented intent; this run shows the code violating it. -/
theorem C3_update_unknown_field_data_loss :
    (CSVDataManager.mk (some [defaultColumns, ["1", "a", "b", "", "", "", ""]])
        (some defaultColumns)).update [("id", "1")] [("bogus", "v")] =
      ({ file := some [defaultColumns], field_names := some defaultColumns },
        some .valueError) := by
  rfl

/-- C7: with non-negative slice bounds, `list` applies the slice to the
already filtered/sorted sequence and clamps silently: the result is the
half-open sub-sequence, empty or shorter than requested when the bounds
exceed the sequence length, and no error is raised. -/
theorem C7_row_slice_clamps (st : CSVDataManager)
    (crit : Option (List (String × String))) (ob : Option String)
    (s e : Int) (L : List PyRecord)
    (hbase : st.list crit ob none = .ok L) (hs : 0 ≤ s) (he : 0 ≤ e) :
    st.list crit ob (some (s, e))
      = .ok ((L.drop s.toNat).take (e.toNat - s.toNat)) ∧
    (L.drop s.toNat).take (e.toNat - s.toNat) = (L.take e.toNat).drop s.toNat ∧
    ((L.drop s.toNat).take (e.toNat - s.toNat)).length
      = min e.toNat L.length - min s.toNat L.length ∧
    (L.length ≤ s.toNat → (L.drop s.toNat).take (e.toNat - s.toNat) = []) := by
  have hb : st.listBase crit ob = .ok L := by
    rw [← list_none_slice]
    exact hbase
  refine ⟨?_, ?_, ?_, ?_⟩
  · rw [list_some_slice st crit ob s e L hb]
    unfold pyIslice
    rw [if_neg (by omega)]
  · exact (List.drop_take e.toNat s.toNat L).symm
  · rw [List.length_take, List.length_drop]
    omega
  · intro h
    rw [List.drop_eq_nil_of_le h, List.take_nil]

theorem delete_spec (hdr : List String) (rows : List Row)
    (crit : List (String × String))
    (hkeys : ∀ r ∈ readRecords (hdr :: rows), ∀ kv ∈ crit,
      (r.fields.lookup kv.1).isSome = true)
    (hwrong : ∀ r ∈ (readRecords (hdr :: rows)).filter
      (fun r => !specMatchExact crit r), wrongFields hdr r = false) :
    (CSVDataManager.mk (some (hdr :: rows)) (some hdr)).delete crit
      = (CSVDataManager.mk
          (some (hdr :: ((readRecords (hdr :: rows)).filter
            (fun r => !specMatchExact crit r)).map
              (fun r => encodeRow hdr r.fields)))
          (some hdr), none) := by
  have h1 : (CSVDataManager.mk (some (hdr :: rows)) (some hdr)).list
      none none none = .ok (readRecords (hdr :: rows)) := by
    rw [list_none_slice]
    exact listBase_plain _ _ rfl
  have h2 : filterME (fun r => do pure (!(← matchesExact r crit)))
      (readRecords (hdr :: rows))
      = .ok ((readRecords (hdr :: rows)).filter
          (fun r => !specMatchExact crit r)) := by
    apply filterME_pure
    intro r hr
    show Except.bind (matchesExact r crit) _ = _
    rw [matchesExact_pure r crit (hkeys r hr)]
    rfl
  have h3 : (CSVDataManager.mk (some (hdr :: rows)) (some hdr)).overwrite_with
      ((readRecords (hdr :: rows)).filter (fun r => !specMatchExact crit r))
      = (CSVDataManager.mk
          (some (hdr :: ((readRecords (hdr :: rows)).filter
            (fun r => !specMatchExact crit r)).map
              (fun r => encodeRow hdr r.fields)))
          (some hdr), none) := by
    show (match overwriteGo hdr
        ((readRecords (hdr :: rows)).filter (fun r => !specMatchExact crit r))
        [hdr] with
      | (rows', err) =>
        ({ CSVDataManager.mk (some (hdr :: rows)) (some hdr) with
            file := some rows' }, err)) = _
    rw [overwriteGo_clean hdr _ [hdr] hwrong]
    rfl
  unfold CSVDataManager.delete
  rw [h1]
  show (match filterME (fun r => do pure (!(← matchesExact r crit)))
      (readRecords (hdr :: rows)) with
    | .error e => (CSVDataManager.mk (some (hdr :: rows)) (some hdr), some e)
    | .ok kept =>
      (CSVDataManager.mk (some (hdr :: rows)) (some hdr)).overwrite_with kept)
    = _
  rw [h2]
  exact h3

/-- C9: on a non-empty table, `delete` with an empty criteria mapping
removes every record — `all()` over an empty criteria is `True` for every
row, so no row survives the rewrite and only the header line remains. -/
theorem C9_delete_empty_criteria_clears (st : CSVDataManager)
    (hdr : List String) (rows : List Row)
    (hfn : st.field_names = some hdr) (hfile : st.file = some (hdr :: rows))
    (hne : rows ≠ []) :
    st.delete [] = ({ file := some [hdr], field_names := some hdr }, none) ∧
    readRecords [hdr] = [] := by
  obtain ⟨f, fn⟩ := st
  replace hfn : fn = some hdr := hfn
  replace hfile : f = some (hdr :: rows) := hfile
  subst hfn
  subst hfile
  constructor
  · have hd := delete_spec hdr rows []
      (by intro r _ kv hkv; simp at hkv)
      (by
        intro r hr
        rw [List.mem_filter] at hr
        simp [specMatchExact] at hr)
    rw [hd]
    have hnil : (readRecords (hdr :: rows)).filter
        (fun r => !specMatchExact ([] : List (String × String)) r) = [] :=
      List.filter_eq_nil_iff.mpr (fun a _ => by simp [specMatchExact])
    rw [hnil]
    rfl
  · rfl

theorem C9_delete_empty_criteria_clears_witness :
    (CSVDataManager.mk
        (some [["a", "b"], ["1", "x"], ["2", "y"]]) (some ["a", "b"])).delete []
      = ({ file := some [["a", "b"]], field_names := some ["a", "b"] }, none) ∧
    readRecords [["a", "b"]] = [] :=
  C9_delete_empty_criteria_clears
    (CSVDataManager.mk (some [["a", "b"], ["1", "x"], ["2", "y"]])
      (some ["a", "b"]))
    ["a", "b"] [["1", "x"], ["2", "y"]] rfl rfl (by decide)

/-- C5: `delete` removes exactly the records matching every criteria pair
under exact, case-sensitive equality (AND semantics — unlike `list`'s
case-insensitive matching), and every surviving line is kept byte-identical
in its original relative order; in particular, after `delete({id: "2"})` no
record with id `"2"` remains.  The characterisation conjunct states the
matching predicate: a row is removed iff every criteria pair equals the
stored value exactly. -/
theorem C5_delete_exact_filter (st : CSVDataManager) (hdr : List String)
    (rows : List Row) (crit : List (String × String))
    (hfn : st.field_names = some hdr) (hfile : st.file = some (hdr :: rows))
    (hnd : hdr.Nodup) (hhdr : hdr ≠ [])
    (hwf : ∀ row ∈ rows, row.length = hdr.length)
    (hkeys : ∀ kv ∈ crit, kv.1 ∈ hdr) :
    st.delete crit
      = (CSVDataManager.mk (some (hdr :: rows.filter
            (fun row => !specMatchExact crit (decodeRow hdr row))))
          (some hdr), none) ∧
    (rows.filter
      (fun row => !specMatchExact crit (decodeRow hdr row))).Sublist rows ∧
    (∀ row ∈ rows, (specMatchExact crit (decodeRow hdr row) = true ↔
      ∀ kv ∈ crit, (zipPad hdr row).lookup kv.1 = some (some kv.2))) := by
  obtain ⟨f, fn⟩ := st
  replace hfn : fn = some hdr := hfn
  replace hfile : f = some (hdr :: rows) := hfile
  subst hfn
  subst hfile
  have hne : ∀ row ∈ rows, row ≠ [] := by
    intro row hr h0
    rw [h0] at hr
    have := hwf [] hr
    simp at this
    exact hhdr (List.length_eq_zero.mp this.symm)
  have hR : readRecords (hdr :: rows) = rows.map (decodeRow hdr) :=
    readRecords_wf hdr rows hne
  refine ⟨?_, List.filter_sublist rows, ?_⟩
  · have hd := delete_spec hdr rows crit
      (by
        intro r hr kv hkv
        rw [hR] at hr
        obtain ⟨row, hrow, rfl⟩ := List.mem_map.mp hr
        exact zipPad_lookup_isSome hdr row kv.1 (hkeys kv hkv))
      (by
        intro r hr
        rw [hR] at hr
        obtain ⟨row, hrow, rfl⟩ :=
          List.mem_map.mp (List.mem_of_mem_filter hr)
        exact wrongFields_decode hdr row (hwf row hrow))
    rw [hd, hR, List.filter_map, List.map_map]
    have hcomp : ∀ row ∈ rows.filter
        ((fun r => !specMatchExact crit r) ∘ decodeRow hdr),
        ((fun r => encodeRow hdr r.fields) ∘ decodeRow hdr) row = id row := by
      intro row hrow
      show encodeRow hdr (zipPad hdr row) = row
      exact encode_zipPad hdr row hnd (hwf row (List.mem_of_mem_filter hrow))
    rw [List.map_congr_left hcomp, List.map_id]
    rfl
  · intro row hrow
    unfold specMatchExact
    rw [List.all_eq_true]
    constructor
    · intro h kv hkv
      obtain ⟨s, hs⟩ :=
        zipPad_lookup_full hdr row kv.1 (hkeys kv hkv) (hwf row hrow)
      have := h kv hkv
      rw [show (decodeRow hdr row).fields = zipPad hdr row from rfl, hs] at this
      rw [hs, beq_iff_eq.mp this]
    · intro h kv hkv
      have hs := h kv hkv
      rw [show (decodeRow hdr row).fields = zipPad hdr row from rfl, hs]
      exact beq_self_eq_true kv.2

theorem C5_delete_exact_filter_witness :
    (CSVDataManager.mk (some [["id", "a"], ["1", "x"], ["2", "y"]])
        (some ["id", "a"])).delete [("id", "2")]
      = (CSVDataManager.mk (some [["id", "a"], ["1", "x"]])
          (some ["id", "a"]), none) :=
  ((C5_delete_exact_filter
      (CSVDataManager.mk (some [["id", "a"], ["1", "x"], ["2", "y"]])
        (some ["id", "a"]))
      ["id", "a"] [["1", "x"], ["2", "y"]] [("id", "2")]
      rfl rfl (by decide) (by decide) (by decide) (by decide)).1).trans (by rfl)

/-- C4: with a non-empty criteria mapping over schema columns, `list`
returns exactly the records for which every `(key, value)` criteria pair
matches the stored value case-insensitively — the logical AND of exact
case-insensitive equality per field, as the characterisation conjunct
states — in the records' original relative file order (the result is the
filter of the unsliced, unsorted listing, hence a sublist of it). -/
theorem C4_list_criteria_filter (st : CSVDataManager) (hdr : List String)
    (rows : List Row) (crit : List (String × String))
    (hfile : st.file = some (hdr :: rows)) (hhdr : hdr ≠ [])
    (hwf : ∀ row ∈ rows, row.length = hdr.length)
    (hkeys : ∀ kv ∈ crit, kv.1 ∈ hdr) (hcrit : crit ≠ []) :
    ∃ L, st.list none none none = .ok L ∧
      st.list (some crit) none none = .ok (L.filter (specMatchCI crit)) ∧
      (L.filter (specMatchCI crit)).Sublist L ∧
      (∀ r ∈ L, (specMatchCI crit r = true ↔
        ∀ kv ∈ crit, ∃ s, r.fields.lookup kv.1 = some (some s) ∧
          pyLower s = pyLower kv.2)) := by
  have hne : ∀ row ∈ rows, row ≠ [] := by
    intro row hr h0
    rw [h0] at hr
    have := hwf [] hr
    simp at this
    exact hhdr (List.length_eq_zero.mp this.symm)
  refine ⟨rows.map (decodeRow hdr), ?_, ?_, List.filter_sublist _, ?_⟩
  · rw [list_none_slice, listBase_plain st _ hfile,
      readRecords_wf hdr rows hne]
  · obtain ⟨kv0, crest, rfl⟩ := List.exists_cons_of_ne_nil hcrit
    have hfil : filterME (fun r => matchesCI r (kv0 :: crest))
        (readRecords (hdr :: rows))
        = .ok ((rows.map (decodeRow hdr)).filter
            (specMatchCI (kv0 :: crest))) := by
      rw [readRecords_wf hdr rows hne]
      apply filterME_pure
      intro r hr
      obtain ⟨row, hrow, rfl⟩ := List.mem_map.mp hr
      apply matchesCI_pure
      intro kv hkv
      exact zipPad_lookup_full hdr row kv.1 (hkeys kv hkv) (hwf row hrow)
    rw [list_none_slice]
    unfold CSVDataManager.listBase
    rw [hfile]
    show Except.bind (filterME (fun r => matchesCI r (kv0 :: crest))
      (readRecords (hdr :: rows))) pure = _
    rw [hfil]
    rfl
  · intro r hr
    obtain ⟨row, hrow, rfl⟩ := List.mem_map.mp hr
    unfold specMatchCI
    rw [List.all_eq_true]
    constructor
    · intro h kv hkv
      obtain ⟨s, hs⟩ :=
        zipPad_lookup_full hdr row kv.1 (hkeys kv hkv) (hwf row hrow)
      have h2 : (match (zipPad hdr row).lookup kv.1 with
          | some (some s) => pyLower s == pyLower kv.2
          | _ => false) = true := h kv hkv
      rw [hs] at h2
      exact ⟨s, hs, beq_iff_eq.mp h2⟩
    · intro h kv hkv
      obtain ⟨s, hs, hlow⟩ := h kv hkv
      have hs' : (zipPad hdr row).lookup kv.1 = some (some s) := hs
      show (match (zipPad hdr row).lookup kv.1 with
        | some (some s) => pyLower s == pyLower kv.2
        | _ => false) = true
      rw [hs']
      exact beq_iff_eq.mpr hlow

theorem C4_list_criteria_filter_witness :
    (CSVDataManager.mk
        (some [["id", "last_name"], ["1", "Smith"], ["2", "Jones"],
          ["3", "SMITH"]])
        (some ["id", "last_name"])).list (some [("last_name", "smith")])
        none none
      = .ok [decodeRow ["id", "last_name"] ["1", "Smith"],
          decodeRow ["id", "last_name"] ["3", "SMITH"]] := by
  obtain ⟨L, h1, h2, _, _⟩ := C4_list_criteria_filter
    (CSVDataManager.mk
      (some [["id", "last_name"], ["1", "Smith"], ["2", "Jones"],
        ["3", "SMITH"]])
      (some ["id", "last_name"]))
    ["id", "last_name"] [["1", "Smith"], ["2", "Jones"], ["3", "SMITH"]]
    [("last_name", "smith")]
    rfl (by decide) (by decide) (by decide) (by decide)
  have hL : L = [decodeRow ["id", "last_name"] ["1", "Smith"],
      decodeRow ["id", "last_name"] ["2", "Jones"],
      decodeRow ["id", "last_name"] ["3", "SMITH"]] :=
    Except.ok.inj (h1.symm.trans (rfl :
      (CSVDataManager.mk
        (some [["id", "last_name"], ["1", "Smith"], ["2", "Jones"],
          ["3", "SMITH"]])
        (some ["id", "last_name"])).list none none none
        = .ok [decodeRow ["id", "last_name"] ["1", "Smith"],
            decodeRow ["id", "last_name"] ["2", "Jones"],
            decodeRow ["id", "last_name"] ["3", "SMITH"]]))
  rw [hL] at h2
  exact h2.trans (by rfl)

theorem C7_row_slice_clamps_witness :
    (0 : Int) ≤ 5 ∧ (0 : Int) ≤ 9 ∧
    (CSVDataManager.mk
        (some [["id", "last_name"], ["1", "Smith"], ["2", "Jones"]])
        (some ["id", "last_name"])).list none none (some (5, 9))
      = .ok [] := by
  refine ⟨by norm_num, by norm_num, ?_⟩
  have h := (C7_row_slice_clamps
    (CSVDataManager.mk
      (some [["id", "last_name"], ["1", "Smith"], ["2", "Jones"]])
      (some ["id", "last_name"]))
    none none 5 9
    [decodeRow ["id", "last_name"] ["1", "Smith"],
      decodeRow ["id", "last_name"] ["2", "Jones"]]
    rfl (by norm_num) (by norm_num)).1
  exact h.trans (by rfl)

/-- C8 counterexample: a pre-existing file whose first line is blank.  The
constructor reads back `[]` as the schema handle (second conjunct), which is
falsy, so `createTable` on this state — in which the table file exists
(first conjunct) — is NOT a no-op: it truncates the file to just the new
header, destroying the stored line `["x", "y"]` (third conjunct). -/
theorem C8_create_table_overwrites_counterexample :
    (CSVDataManager.mk (some [[], ["x", "y"]]) (some [])).file
      = some [[], ["x", "y"]] ∧
    getFieldNames (some [[], ["x", "y"]]) = some [] ∧
    (CSVDataManager.mk (some [[], ["x", "y"]]) (some [])).create_table
        defaultColumns
      = { file := some [defaultColumns], field_names := some defaultColumns } :=
  ⟨rfl, rfl, rfl⟩

/-- C8 amended: `createTable` is a no-op exactly when the in-memory schema
handle read back at construction is truthy: if the file exists and its first
line is a non-empty header, `createTable` changes nothing; if the file does
not exist, it creates it and writes the header line.  (When the file exists
but is empty or starts with a blank line, the handle is falsy and
`createTable` truncates the file to the new header.) -/
theorem C8_create_table_amended (cols hdr : List String) (rows : List Row) :
    (hdr ≠ [] → (preInit (some (hdr :: rows))).create_table cols
      = preInit (some (hdr :: rows))) ∧
    (preInit none).create_table cols
      = { file := some [cols], field_names := some cols } := by
  constructor
  · intro h
    obtain ⟨c, cs, rfl⟩ := List.exists_cons_of_ne_nil h
    rfl
  · rfl

theorem C8_create_table_amended_witness :
    (["a"] : List String) ≠ [] ∧
    (preInit (some [["a"], ["r"]])).create_table defaultColumns
      = preInit (some [["a"], ["r"]]) ∧
    (preInit none).create_table defaultColumns
      = { file := some [defaultColumns], field_names := some defaultColumns } :=
  ⟨by decide,
    (C8_create_table_amended defaultColumns ["a"] [["r"]]).1 (by decide),
    (C8_create_table_amended defaultColumns ["a"] [["r"]]).2⟩

theorem dictSet_lookup_self : ∀ (dd : PyDict) (k : String) (v : Option String),
    (dictSet dd k v).lookup k = some v := by
  intro dd k v
  unfold dictSet
  by_cases h : dd.any (fun kv => kv.1 = k)
  · rw [if_pos h]
    induction dd with
    | nil => simp at h
    | cons kv0 rest ih =>
      by_cases h0 : kv0.1 = k
      · simp only [List.map_cons, if_pos h0]
        simp [List.lookup_cons]
      · simp only [List.map_cons, if_neg h0]
        have hrest : rest.any (fun kv => kv.1 = k) = true := by
          rcases List.any_eq_true.mp h with ⟨kv1, hkv1, hp⟩
          rcases List.mem_cons.mp hkv1 with rfl | hm
          · exact absurd (of_decide_eq_true hp) h0
          · exact List.any_eq_true.mpr ⟨kv1, hm, hp⟩
        have hbeq : (k == kv0.1) = false :=
          beq_eq_false_iff_ne.mpr (fun he => h0 he.symm)
        obtain ⟨k0, v0⟩ := kv0
        rw [show (List.lookup k ((k0, v0) :: List.map
            (fun kv => if kv.1 = k then (k, v) else kv) rest)
          : Option (Option String))
          = List.lookup k (List.map
              (fun kv => if kv.1 = k then (k, v) else kv) rest) from by
            simp [List.lookup_cons, hbeq]]
        exact ih hrest
  · rw [if_neg h]
    induction dd with
    | nil => simp [List.lookup_cons]
    | cons kv0 rest ih =>
      have h0 : ¬(kv0.1 = k) := by
        intro he
        exact h (List.any_eq_true.mpr ⟨kv0, by simp, decide_eq_true he⟩)
      have hrest : ¬(rest.any (fun kv => kv.1 = k) = true) := by
        intro hr
        rcases List.any_eq_true.mp hr with ⟨kv1, hm, hp⟩
        exact h (List.any_eq_true.mpr ⟨kv1, List.mem_cons_of_mem _ hm, hp⟩)
      have hbeq : (k == kv0.1) = false :=
        beq_eq_false_iff_ne.mpr (fun he => h0 he.symm)
      obtain ⟨k0, v0⟩ := kv0
      simp only [List.cons_append]
      rw [show (List.lookup k ((k0, v0) :: (rest ++ [(k, v)]))
        : Option (Option String)) = List.lookup k (rest ++ [(k, v)]) from by
          simp [List.lookup_cons, hbeq]]
      exact ih hrest

theorem dictSet_keys {P : String → Prop} (dd : PyDict) (k : String)
    (v : Option String) (h1 : ∀ kv ∈ dd, P kv.1) (h2 : P k) :
    ∀ kv ∈ dictSet dd k v, P kv.1 := by
  intro kv hkv
  unfold dictSet at hkv
  by_cases h : dd.any (fun kv => kv.1 = k)
  · rw [if_pos h] at hkv
    obtain ⟨kv0, hkv0, heq⟩ := List.mem_map.mp hkv
    by_cases h0 : kv0.1 = k
    · rw [if_pos h0] at heq
      rw [← heq]
      exact h2
    · rw [if_neg h0] at heq
      rw [← heq]
      exact h1 kv0 hkv0
  · rw [if_neg h] at hkv
    rcases List.mem_append.mp hkv with hm | hm
    · exact h1 kv hm
    · rw [List.mem_singleton.mp hm]
      exact h2

theorem decodeRow_get_id (v : String) (vrest : List String) :
    (decodeRow defaultColumns (v :: vrest)).get "id" = .ok (some v) := rfl

theorem lastIdFold_ids : ∀ (rows : List Row) (ids : List Int) (acc : Int),
    (∀ row ∈ rows, row ≠ []) →
    rows.map (fun row => row.headD "") = ids.map pyStrInt →
    (∀ i ∈ ids, 0 ≤ i) →
    lastIdFold (rows.map (decodeRow defaultColumns)) acc
      = .ok (ids.getLastD acc) := by
  intro rows
  induction rows with
  | nil =>
    intro ids acc _ hmap _
    have h' : List.map pyStrInt ids = [] := hmap.symm
    rw [List.map_eq_nil_iff.mp h']
    rfl
  | cons row rs ih =>
    intro ids acc hne hmap hpos
    obtain ⟨i, is, rfl⟩ : ∃ i is, ids = i :: is := by
      cases ids with
      | nil => simp at hmap
      | cons i is => exact ⟨i, is, rfl⟩
    rw [List.map_cons, List.map_cons] at hmap
    obtain ⟨h1, h2⟩ := List.cons.inj hmap
    obtain ⟨v, vrest, rfl⟩ := List.exists_cons_of_ne_nil (hne row (by simp))
    simp only [List.headD_cons] at h1
    subst h1
    rw [List.map_cons]
    show Except.bind ((decodeRow defaultColumns (pyStrInt i :: vrest)).get "id")
      (fun x => Except.bind (pyInt x)
        (fun n => lastIdFold (rs.map (decodeRow defaultColumns)) n)) = _
    rw [decodeRow_get_id]
    show Except.bind (pyInt (some (pyStrInt i)))
      (fun n => lastIdFold (rs.map (decodeRow defaultColumns)) n) = _
    rw [pyInt_pyStrInt (hpos i (by simp))]
    show lastIdFold (rs.map (decodeRow defaultColumns)) i = _
    rw [ih is i (fun r hr => hne r (List.mem_cons_of_mem _ hr)) h2
      (fun j hj => hpos j (List.mem_cons_of_mem _ hj)),
      List.getLastD_cons]

theorem add_spec (rows : List Row) (ids : List Int)
    (d : List (String × String))
    (hids : rows.map (fun row => row.headD "") = ids.map pyStrInt)
    (hwf : ∀ row ∈ rows, row.length = defaultColumns.length)
    (hpos : ∀ i ∈ ids, 0 ≤ i)
    (hd : ∀ kv ∈ d, kv.1 ∈ defaultColumns) :
    (CSVDataManager.mk (some (defaultColumns :: rows))
        (some defaultColumns)).add d
      = .ok (CSVDataManager.mk
          (some ((defaultColumns :: rows) ++ [encodeRow defaultColumns
            (dictSet (toPyDict d) "id"
              (some (pyStrInt (ids.getLastD 0 + 1))))]))
          (some defaultColumns)) := by
  have hne : ∀ row ∈ rows, row ≠ [] := by
    intro row hr h0
    have := hwf row hr
    rw [h0] at this
    simp [defaultColumns] at this
  have hlast : lastIdFold (readRecords (defaultColumns :: rows)) 0
      = .ok (ids.getLastD 0) := by
    rw [readRecords_wf _ _ hne]
    exact lastIdFold_ids rows ids 0 hne hids hpos
  have hrec : (dictSet (toPyDict d) "id"
      (some (pyStrInt (ids.getLastD 0 + 1)))).any
        (fun kv => !(defaultColumns.contains kv.1)) = false := by
    rw [List.any_eq_false]
    intro kv hkv
    have hmem : kv.1 ∈ defaultColumns := by
      refine dictSet_keys (toPyDict d) "id" _ ?_ ?_ kv hkv
      · intro kv' hkv'
        obtain ⟨kv'', hkv'', rfl⟩ := List.mem_map.mp hkv'
        exact hd kv'' hkv''
      · simp [defaultColumns]
    simp [hmem]
  show Except.bind (lastIdFold (readRecords (defaultColumns :: rows)) 0)
    (fun lastId =>
      if (dictSet (toPyDict d) "id" (some (pyStrInt (lastId + 1)))).any
          (fun kv => !(defaultColumns.contains kv.1))
        then Except.error PyErr.valueError
        else Except.ok (CSVDataManager.mk
          (some ((defaultColumns :: rows) ++ [encodeRow defaultColumns
            (dictSet (toPyDict d) "id" (some (pyStrInt (lastId + 1))))]))
          (some defaultColumns)))
    = Except.ok (CSVDataManager.mk
        (some ((defaultColumns :: rows) ++ [encodeRow defaultColumns
          (dictSet (toPyDict d) "id"
            (some (pyStrInt (ids.getLastD 0 + 1))))]))
        (some defaultColumns))
  rw [hlast]
  show (if (dictSet (toPyDict d) "id"
      (some (pyStrInt (ids.getLastD 0 + 1)))).any
        (fun kv => !(defaultColumns.contains kv.1))
      then Except.error PyErr.valueError
      else Except.ok (CSVDataManager.mk
        (some ((defaultColumns :: rows) ++ [encodeRow defaultColumns
          (dictSet (toPyDict d) "id"
            (some (pyStrInt (ids.getLastD 0 + 1))))]))
        (some defaultColumns)))
    = Except.ok (CSVDataManager.mk
        (some ((defaultColumns :: rows) ++ [encodeRow defaultColumns
          (dictSet (toPyDict d) "id"
            (some (pyStrInt (ids.getLastD 0 + 1))))]))
        (some defaultColumns))
  rw [hrec]
  rfl

theorem delete_wf (hdr : List String) (rows : List Row)
    (crit : List (String × String))
    (hnd : hdr.Nodup) (hhdr : hdr ≠ [])
    (hwf : ∀ row ∈ rows, row.length = hdr.length)
    (hkeys : ∀ kv ∈ crit, kv.1 ∈ hdr) :
    (CSVDataManager.mk (some (hdr :: rows)) (some hdr)).delete crit
      = (CSVDataManager.mk (some (hdr :: rows.filter
          (fun row => !specMatchExact crit (decodeRow hdr row))))
          (some hdr), none) := by
  have hne : ∀ row ∈ rows, row ≠ [] := by
    intro row hr h0
    rw [h0] at hr
    have := hwf [] hr
    simp at this
    exact hhdr (List.length_eq_zero.mp this.symm)
  have hR : readRecords (hdr :: rows) = rows.map (decodeRow hdr) :=
    readRecords_wf hdr rows hne
  have hd := delete_spec hdr rows crit
    (by
      intro r hr kv hkv
      rw [hR] at hr
      obtain ⟨row, hrow, rfl⟩ := List.mem_map.mp hr
      exact zipPad_lookup_isSome hdr row kv.1 (hkeys kv hkv))
    (by
      intro r hr
      rw [hR] at hr
      obtain ⟨row, hrow, rfl⟩ :=
        List.mem_map.mp (List.mem_of_mem_filter hr)
      exact wrongFields_decode hdr row (hwf row hrow))
  rw [hd, hR, List.filter_map, List.map_map]
  have hcomp : ∀ row ∈ rows.filter
      ((fun r => !specMatchExact crit r) ∘ decodeRow hdr),
      ((fun r => encodeRow hdr r.fields) ∘ decodeRow hdr) row = id row := by
    intro row hrow
    show encodeRow hdr (zipPad hdr row) = row
    exact encode_zipPad hdr row hnd (hwf row (List.mem_of_mem_filter hrow))
  rw [List.map_congr_left hcomp, List.map_id]
  rfl

theorem filter_ids_sublist (p : Row → Bool) : ∀ (rows : List Row)
    (ids : List Int),
    rows.map (fun row => row.headD "") = ids.map pyStrInt →
    ∃ ids' : List Int,
      (rows.filter p).map (fun row => row.headD "") = ids'.map pyStrInt
      ∧ ids'.Sublist ids := by
  intro rows
  induction rows with
  | nil =>
    intro ids _
    exact ⟨[], rfl, List.nil_sublist ids⟩
  | cons row rs ih =>
    intro ids h
    obtain ⟨i, is, rfl⟩ : ∃ i is, ids = i :: is := by
      cases ids with
      | nil => simp at h
      | cons i is => exact ⟨i, is, rfl⟩
    rw [List.map_cons, List.map_cons] at h
    obtain ⟨h1, h2⟩ := List.cons.inj h
    obtain ⟨ids', hm, hs⟩ := ih is h2
    by_cases hp : p row
    · refine ⟨i :: ids', ?_, hs.cons₂ i⟩
      rw [List.filter_cons, if_pos hp, List.map_cons, h1, hm]
      rfl
    · refine ⟨ids', ?_, hs.cons i⟩
      rw [List.filter_cons, if_neg hp, hm]

theorem chain_lt_getLastD : ∀ (l : List Int) (d : Int),
    List.Chain' (· < ·) l → ∀ x ∈ l, x ≤ l.getLastD d := by
  intro l
  induction l with
  | nil => simp
  | cons a t ih =>
    intro d hch x hx
    rw [List.getLastD_cons]
    rcases List.mem_cons.mp hx with rfl | hxt
    · cases t with
      | nil => simp
      | cons b t' =>
        have hab : x < b := (List.chain'_cons.mp hch).1
        have hb := ih x (List.chain'_cons.mp hch).2 b (by simp)
        omega
    · cases t with
      | nil => simp at hxt
      | cons b t' => exact ih a hch.tail x hxt

theorem getLastD_mem_int : ∀ (l : List Int) (d : Int), l ≠ [] →
    l.getLastD d ∈ l := by
  intro l
  induction l with
  | nil => intro d h; exact absurd rfl h
  | cons a t ih =>
    intro d _
    rw [List.getLastD_cons]
    cases t with
    | nil => simp
    | cons b t' => exact List.mem_cons_of_mem a (ih a (by simp))

theorem chain_append_last (ids : List Int)
    (hch : List.Chain' (· < ·) ids) (j : Int)
    (hj : ids.getLastD 0 < j) : List.Chain' (· < ·) (ids ++ [j]) := by
  rw [List.chain'_append]
  refine ⟨hch, List.chain'_singleton j, ?_⟩
  intro x hx y hy
  simp only [List.head?_cons, Option.mem_def, Option.some.injEq] at hy
  subst hy
  rw [Option.mem_def] at hx
  have : ids.getLastD 0 = x := by
    rw [List.getLastD_eq_getLast?, hx]
    rfl
  omega

theorem range_ids_getLastD (k : Nat) :
    ((List.range k).map (fun i : Nat => (i : Int) + 1)).getLastD 0 = k := by
  induction k with
  | zero => rfl
  | succ n ihn =>
    rw [List.range_succ, List.map_append]
    simp only [List.map_cons, List.map_nil]
    rw [List.getLastD_concat]
    push_cast
    ring

theorem pyStrInt_natCast (n : Nat) : pyStrInt ((n : Nat) : Int) = pyStrNat n := by
  unfold pyStrInt
  rw [if_neg (by omega), Int.toNat_natCast]

theorem add_inv (st : CSVDataManager) (ids : List Int)
    (d : List (String × String)) (hinv : StoreInv st ids)
    (hd : ∀ kv ∈ d, kv.1 ∈ defaultColumns) :
    ∃ st', st.add d = .ok st' ∧
      StoreInv st' (ids ++ [ids.getLastD 0 + 1]) ∧
      tableIds st' = tableIds st ++ [pyStrInt (ids.getLastD 0 + 1)] := by
  obtain ⟨rows, hfn, hfile, hwf, hids, hch, hpos⟩ := hinv
  obtain ⟨f, fn⟩ := st
  replace hfn : fn = some defaultColumns := hfn
  replace hfile : f = some (defaultColumns :: rows) := hfile
  subst hfn
  subst hfile
  have hpos' : ∀ i ∈ ids, 0 ≤ i := fun i hi => le_of_lt (hpos i hi)
  have hmnn : 0 ≤ ids.getLastD 0 := by
    by_cases h0 : ids = []
    · simp [h0]
    · exact le_of_lt (hpos _ (getLastD_mem_int ids 0 h0))
  have hhead : (encodeRow defaultColumns (dictSet (toPyDict d) "id"
      (some (pyStrInt (ids.getLastD 0 + 1))))).headD ""
      = pyStrInt (ids.getLastD 0 + 1) := by
    show encodeField (dictSet (toPyDict d) "id"
      (some (pyStrInt (ids.getLastD 0 + 1)))) "id" = _
    unfold encodeField
    rw [dictSet_lookup_self]
  refine ⟨_, add_spec rows ids d hids hwf hpos' hd, ?_, ?_⟩
  · refine ⟨rows ++ [encodeRow defaultColumns (dictSet (toPyDict d) "id"
      (some (pyStrInt (ids.getLastD 0 + 1))))], rfl, rfl, ?_, ?_, ?_, ?_⟩
    · intro row hr
      rcases List.mem_append.mp hr with hm | hm
      · exact hwf row hm
      · rw [List.mem_singleton.mp hm]
        exact List.length_map defaultColumns _
    · rw [List.map_append, hids, List.map_append, List.map_cons, List.map_nil,
        List.map_cons, List.map_nil, hhead]
    · exact chain_append_last ids hch _ (by omega)
    · intro i hi
      rcases List.mem_append.mp hi with hm | hm
      · exact hpos i hm
      · rw [List.mem_singleton.mp hm]
        omega
  · show (rows ++ [encodeRow defaultColumns (dictSet (toPyDict d) "id"
        (some (pyStrInt (ids.getLastD 0 + 1))))]).map (fun row => row.headD "")
      = rows.map (fun row => row.headD "")
        ++ [pyStrInt (ids.getLastD 0 + 1)]
    rw [List.map_append, List.map_cons, List.map_nil, hhead]

theorem delete_inv (st : CSVDataManager) (ids : List Int)
    (crit : List (String × String)) (hinv : StoreInv st ids)
    (hkeys : ∀ kv ∈ crit, kv.1 ∈ defaultColumns) :
    ∃ st' ids', st.delete crit = (st', none) ∧ StoreInv st' ids' ∧
      ids'.Sublist ids := by
  obtain ⟨rows, hfn, hfile, hwf, hids, hch, hpos⟩ := hinv
  obtain ⟨f, fn⟩ := st
  replace hfn : fn = some defaultColumns := hfn
  replace hfile : f = some (defaultColumns :: rows) := hfile
  subst hfn
  subst hfile
  have hdel := delete_wf defaultColumns rows crit (by decide) (by decide)
    hwf hkeys
  obtain ⟨ids', hm, hs⟩ := filter_ids_sublist
    (fun row => !specMatchExact crit (decodeRow defaultColumns row))
    rows ids hids
  refine ⟨_, ids', hdel, ?_, hs⟩
  refine ⟨rows.filter
    (fun row => !specMatchExact crit (decodeRow defaultColumns row)),
    rfl, rfl, ?_, hm, ?_, ?_⟩
  · intro row hr
    exact hwf row (List.mem_of_mem_filter hr)
  · exact List.Chain'.sublist hch hs
  · intro i hi
    exact hpos i (hs.subset hi)

theorem runAdds_consec : ∀ (ds : List (List (String × String)))
    (st : CSVDataManager) (k : Nat),
    StoreInv st ((List.range k).map (fun i : Nat => (i : Int) + 1)) →
    tableIds st = (List.range k).map (fun i : Nat => pyStrNat (i + 1)) →
    (∀ d ∈ ds, ∀ kv ∈ d, kv.1 ∈ defaultColumns) →
    ∃ st', runAdds st ds = .ok st' ∧
      StoreInv st'
        ((List.range (k + ds.length)).map (fun i : Nat => (i : Int) + 1)) ∧
      tableIds st'
        = (List.range (k + ds.length)).map (fun i : Nat => pyStrNat (i + 1)) := by
  intro ds
  induction ds with
  | nil =>
    intro st k hinv htid _
    exact ⟨st, rfl, by simpa using hinv, by simpa using htid⟩
  | cons d ds ih =>
    intro st k hinv htid hd
    obtain ⟨st1, hadd, hinv1, htid1⟩ := add_inv st _ d hinv (hd d (by simp))
    have hlast := range_ids_getLastD k
    have hidseq : ((List.range k).map (fun i : Nat => (i : Int) + 1))
        ++ [((List.range k).map
            (fun i : Nat => (i : Int) + 1)).getLastD 0 + 1]
        = (List.range (k + 1)).map (fun i : Nat => (i : Int) + 1) := by
      rw [hlast, List.range_succ, List.map_append]
      simp only [List.map_cons, List.map_nil]
    have htideq : tableIds st
        ++ [pyStrInt (((List.range k).map
            (fun i : Nat => (i : Int) + 1)).getLastD 0 + 1)]
        = (List.range (k + 1)).map (fun i : Nat => pyStrNat (i + 1)) := by
      rw [htid, hlast, List.range_succ, List.map_append]
      simp only [List.map_cons, List.map_nil]
      rw [show pyStrInt ((k : Int) + 1) = pyStrNat (k + 1) from by
        rw [show ((k : Int) + 1) = ((k + 1 : Nat) : Int) from by omega,
          pyStrInt_natCast]]
    rw [hidseq] at hinv1
    rw [htideq] at htid1
    obtain ⟨st', hrun, hinv', htid'⟩ := ih st1 (k + 1) hinv1 htid1
      (fun d' hd' => hd d' (List.mem_cons_of_mem _ hd'))
    have hlen : k + (d :: ds).length = (k + 1) + ds.length := by
      simp [List.length_cons]
      omega
    refine ⟨st', ?_, ?_, ?_⟩
    · show Except.bind (st.add d) (fun s => runAdds s ds) = .ok st'
      rw [hadd]
      exact hrun
    · rw [hlen]
      exact hinv'
    · rw [hlen]
      exact htid'

/-- C1 counterexample to the never-reuse clause: from a fresh table, one add
assigns id `"1"`; deleting that record leaves the table empty; the next add
assigns `"1"` again — a freed id is reused (here `max(existing ids) + 1`
evaluates to `0 + 1 = 1`, which is exactly the freed id). -/
theorem C1_id_reuse_counterexample :
    reuseRun = .ok (["1"], [], ["1"]) := by
  rfl

/-- C1 amended: (1) for every sequence of `N` adds with no deletes from a
fresh store, the assigned ids are the decimal strings `"1"` through `"N"` in
call order; (2) after any delete from a store whose id column is a strictly
increasing sequence of positive integers, the next add assigns
`max(existing ids) + 1` (`0 + 1` when the table is empty) — computed by the
code as the id of the last stored record plus one, which coincides with the
maximum because deletes preserve file order.  The original claim's
"never reuses a freed id" clause is dropped: it fails whenever the records
holding the largest ids are deleted (see the reuse counterexample). -/
theorem C1_id_assignment_amended :
    (∀ ds : List (List (String × String)),
      (∀ d ∈ ds, ∀ kv ∈ d, kv.1 ∈ defaultColumns) →
      ∃ st, runAdds (initManager none) ds = .ok st ∧
        tableIds st
          = (List.range ds.length).map (fun i : Nat => pyStrNat (i + 1))) ∧
    (∀ (st : CSVDataManager) (ids : List Int)
      (crit d : List (String × String)),
      StoreInv st ids →
      (∀ kv ∈ crit, kv.1 ∈ defaultColumns) →
      (∀ kv ∈ d, kv.1 ∈ defaultColumns) →
      ∃ st' ids' st'',
        st.delete crit = (st', none) ∧ ids'.Sublist ids ∧
        StoreInv st' ids' ∧
        st'.add d = .ok st'' ∧
        tableIds st'' = tableIds st' ++ [pyStrInt (ids'.getLastD 0 + 1)] ∧
        (∀ i ∈ ids', i ≤ ids'.getLastD 0) ∧
        (ids' ≠ [] → ids'.getLastD 0 ∈ ids') ∧
        (ids' = [] → ids'.getLastD 0 = 0)) := by
  constructor
  · intro ds hds
    have hinv0 : StoreInv (initManager none)
        ((List.range 0).map (fun i : Nat => (i : Int) + 1)) :=
      ⟨[], rfl, rfl, by simp, rfl, by simp, by simp⟩
    obtain ⟨st, hrun, _, htid⟩ := runAdds_consec ds (initManager none) 0
      hinv0 rfl hds
    rw [Nat.zero_add] at htid
    exact ⟨st, hrun, htid⟩
  · intro st ids crit d hinv hcrit hd
    obtain ⟨st', ids', hdel, hinv', hsub⟩ := delete_inv st ids crit hinv hcrit
    obtain ⟨st'', hadd, _, htid⟩ := add_inv st' ids' d hinv' hd
    have hch' : List.Chain' (· < ·) ids' := by
      obtain ⟨_, _, _, _, _, hch', _⟩ := hinv'
      exact hch'
    refine ⟨st', ids', st'', hdel, hsub, hinv', hadd, htid, ?_, ?_, ?_⟩
    · exact fun i hi => chain_lt_getLastD ids' 0 hch' i hi
    · exact getLastD_mem_int ids' 0
    · intro h
      rw [h]
      rfl

theorem C1_id_assignment_witness :
    runAdds (initManager none) [[("last_name", "a")], [("last_name", "b")]]
      = .ok (CSVDataManager.mk
          (some [defaultColumns, ["1", "a", "", "", "", "", ""],
            ["2", "b", "", "", "", "", ""]]) (some defaultColumns)) ∧
    tableIds (CSVDataManager.mk
        (some [defaultColumns, ["1", "a", "", "", "", "", ""],
          ["2", "b", "", "", "", "", ""]]) (some defaultColumns))
      = ["1", "2"] := by
  obtain ⟨st, h1, h2⟩ := C1_id_assignment_amended.1
    [[("last_name", "a")], [("last_name", "b")]] (by decide)
  have hst : st = CSVDataManager.mk
      (some [defaultColumns, ["1", "a", "", "", "", "", ""],
        ["2", "b", "", "", "", "", ""]]) (some defaultColumns) :=
    Except.ok.inj (h1.symm.trans (rfl :
      runAdds (initManager none) [[("last_name", "a")], [("last_name", "b")]]
        = .ok (CSVDataManager.mk
            (some [defaultColumns, ["1", "a", "", "", "", "", ""],
              ["2", "b", "", "", "", "", ""]]) (some defaultColumns))))
  rw [hst] at h1
  exact ⟨h1, by rfl⟩
